import Mathlib

/-!
Shallow embedding of the Coupon-Collector repository
(src/problem1.py and src/problem2.py) and proofs of the
specification claims about it.

Randomness is modelled explicitly: the coupon-collector functions take the
stream of `random.randrange(n)` results as a `List Nat`, and the
branching-process functions take the stream of `random.random()` results as a
function `Nat → Rat` together with a running position.  A computation that
would consume more draws than the supplied list provides (i.e. would keep
looping in the real program) returns `none`.  Python's fallible list indexing
(`cdf[0]`, `cdf[1]` may raise IndexError) is embedded as `Option`;
Python's `ZeroDivisionError` on `sum(..) / trials` with `trials = 0` is
embedded as `Except.error`.  Real-valued quantities are modelled as `Rat`.
-/

/-- Embeds the body of `coupon_collector_trial` (problem1.py, lines 28-36):
the `while len(collected) < n` loop, threading the set of collected coupons,
the step counter, and the remaining stream of `random.randrange(n)` draws.
Returns the final step count and the unconsumed draws. -/
def coupon_collector_trialS (n : Int) : Finset Nat → Nat → List Nat → Option (Nat × List Nat)
  | collected, steps, [] =>
      if (collected.card : Int) < n then none else some (steps, [])
  | collected, steps, d :: ds =>
      if (collected.card : Int) < n then
        coupon_collector_trialS n (insert d collected) (steps + 1) ds
      else some (steps, d :: ds)

/-- `coupon_collector_trial(n)` from problem1.py: one trial, returning the
number of draws, given the stream of random draws. -/
def coupon_collector_trial (n : Int) (draws : List Nat) : Option Nat :=
  (coupon_collector_trialS n (∅ : Finset Nat) 0 draws).map Prod.fst

/-- The `for t in range(1, trials + 1)` loop of `simulate_coupon_collector`
(problem1.py, lines 47-51): runs the trial `t` times sequentially on one
shared draw stream, collecting the per-trial step counts in invocation
order.  Returns the list of step counts and the unconsumed draws. -/
def runTrials (n : Int) : Nat → List Nat → Option (List Nat × List Nat)
  | 0, draws => some ([], draws)
  | t + 1, draws =>
      match coupon_collector_trialS n (∅ : Finset Nat) 0 draws with
      | none => none
      | some (s, rest) =>
          match runTrials n t rest with
          | none => none
          | some (l, r) => some (s :: l, r)

/-- `simulate_coupon_collector(n, trials)` from problem1.py (lines 39-55):
runs the trials, then computes `avg_steps = sum(steps_list) / trials`.
Python's division raises `ZeroDivisionError` when `trials = 0`; that
exception is embedded as `Except.error`. -/
def simulate_coupon_collector (n : Int) (trials : Nat) (draws : List Nat) :
    Option (Except String (Rat × List Nat)) :=
  match runTrials n trials draws with
  | none => none
  | some (l, _) =>
      some (if trials = 0 then Except.error "ZeroDivisionError"
            else Except.ok (((l.sum : Nat) : Rat) / (trials : Rat), l))

/-- The inline offspring sampler of `simulate_trial` (problem2.py, line 11):
`0 if r < cdf[0] else 1 if r < cdf[1] else 2`, where
`cdf = np.cumsum(probs)`.  Accessing `cdf[0]` (resp. `cdf[1]`) raises
IndexError when `probs` has fewer than one (resp. two) entries; evaluation is
lazy, so `cdf[1]` is only touched when `r < cdf[0]` is false. -/
def sampleOff (probs : List Rat) (r : Rat) : Option Nat :=
  match probs with
  | [] => none
  | [p0] => if r < p0 then some 0 else none
  | p0 :: p1 :: _ => if r < p0 then some 0
      else if r < p0 + p1 then some 1 else some 2

/-- The `sum(... for _ in range(sizes[-1]))` of `simulate_trial`: samples one
offspring count per individual, consuming one uniform draw each from the
stream `u` starting at position `pos`.  Returns the total offspring count and
the next stream position. -/
def sumOffspring (probs : List Rat) (u : Nat → Rat) : Nat → Nat → Option (Nat × Nat)
  | pos, 0 => some (0, pos)
  | pos, k + 1 =>
      match sampleOff probs (u pos) with
      | none => none
      | some c =>
          match sumOffspring probs u (pos + 1) k with
          | none => none
          | some (rest, q) => some (c + rest, q)

/-- The `for _ in range(num_gens)` loop of `simulate_trial` (problem2.py,
lines 9-18): on extinction (`children == 0`) it appends the zero and pads
with `[0] * (num_gens - len(sizes) + 1)` zeros, then breaks.  Returns the
generation sizes after generation 0. -/
def simLoop (probs : List Rat) (u : Nat → Rat) : Nat → Nat → Nat → Option (List Nat)
  | _, 0, _ => some []
  | pos, g + 1, lastSize =>
      match sumOffspring probs u pos lastSize with
      | none => none
      | some (children, q) =>
          if children = 0 then some (children :: List.replicate g 0)
          else
            match simLoop probs u q g children with
            | none => none
            | some l => some (children :: l)

/-- `simulate_trial(probs, num_gens)` from problem2.py (lines 7-19):
`sizes = [1]`, then the generation loop. -/
def simulate_trial (probs : List Rat) (num_gens : Nat) (u : Nat → Rat) :
    Option (List Nat) :=
  match simLoop probs u 0 num_gens 1 with
  | none => none
  | some l => some (1 :: l)

/-- `mu(probs)` from problem2.py (lines 29-30):
`sum(k * p for k, p in enumerate(probs))`. -/
def mu (probs : List Rat) : Rat :=
  (probs.enum.map (fun kp => (kp.1 : Rat) * kp.2)).sum

/-- Modelled from the spec: "selecting the smallest index i such that
u < CDF(i) where CDF is the running cumulative sum of `distribution`" —
the least index of the cumulative-sum list strictly exceeding u. -/
def cdfIndexSpec (cdf : List Rat) (u : Rat) : Nat :=
  List.findIdx (fun c => decide (u < c)) cdf

/-! ## Helper lemmas about the coupon-collector embedding -/

/-- Every completed trial run satisfies `n ≤ card + steps_final - steps_start`:
each draw adds at most one element to the collected set, and the loop only
stops once the set has at least `n` elements. -/
lemma coupon_collector_trialS_ge :
    ∀ (draws : List Nat) (n : Int) (col : Finset Nat) (steps s : Nat) (rest : List Nat),
      coupon_collector_trialS n col steps draws = some (s, rest) →
      n ≤ (col.card : Int) + (s : Int) - (steps : Int) ∧ steps ≤ s := by
  intro draws
  induction draws with
  | nil =>
      intro n col steps s rest h
      unfold coupon_collector_trialS at h
      split at h
      · exact absurd h (by simp)
      · rename_i hge
        obtain ⟨hs, -⟩ := Prod.mk.injEq .. ▸ Option.some.injEq .. ▸ h
        subst hs
        exact ⟨by omega, le_refl _⟩
  | cons d ds ih =>
      intro n col steps s rest h
      unfold coupon_collector_trialS at h
      split at h
      · rename_i hlt
        obtain ⟨h1, h2⟩ := ih n (insert d col) (steps + 1) s rest h
        have hcard : (insert d col).card ≤ col.card + 1 := Finset.card_insert_le d col
        constructor
        · have : ((insert d col).card : Int) ≤ (col.card : Int) + 1 := by exact_mod_cast hcard
          omega
        · omega
      · rename_i hge
        obtain ⟨hs, -⟩ := Prod.mk.injEq .. ▸ Option.some.injEq .. ▸ h
        subst hs
        exact ⟨by omega, le_refl _⟩

/-- On the draw stream `k, k+1, …, k+j-1` of fresh coupons, the trial loop
started with the first `k` coupons already collected completes after exactly
`j` further draws. -/
lemma coupon_collector_trialS_range' :
    ∀ (j k : Nat) (n : Int), (k : Int) + (j : Int) = n →
      coupon_collector_trialS n (Finset.range k) k (List.range' k j) = some (k + j, []) := by
  intro j
  induction j with
  | zero =>
      intro k n h
      unfold coupon_collector_trialS
      simp only [List.range']
      rw [if_neg]
      · simp
      · simp only [Finset.card_range]
        omega
  | succ j ih =>
      intro k n h
      rw [show List.range' k (j + 1) = k :: List.range' (k + 1) j from List.range'_succ k j 1]
      unfold coupon_collector_trialS
      rw [if_pos]
      · rw [show insert k (Finset.range k) = Finset.range (k + 1) from (Finset.range_succ).symm]
        rw [show k + (j + 1) = (k + 1) + j from by omega]
        exact ih (k + 1) n (by push_cast; omega)
      · simp only [Finset.card_range]
        omega

/-- The trial count list gathered by the aggregation loop has one entry per
requested trial. -/
lemma runTrials_length (n : Int) :
    ∀ (t : Nat) (draws l r : List Nat), runTrials n t draws = some (l, r) → l.length = t := by
  intro t
  induction t with
  | zero =>
      intro draws l r h
      unfold runTrials at h
      obtain ⟨hl, -⟩ := Prod.mk.injEq .. ▸ Option.some.injEq .. ▸ h
      subst hl
      rfl
  | succ t ih =>
      intro draws l r h
      unfold runTrials at h
      split at h
      · exact absurd h (by simp)
      · rename_i s rest h1
        split at h
        · exact absurd h (by simp)
        · rename_i l1 r1 h2
          obtain ⟨hl, -⟩ := Prod.mk.injEq .. ▸ Option.some.injEq .. ▸ h
          subst hl
          simp [ih rest l1 r1 h2]

/-! ## Claims C1, C2, C4, C5 -/

/-- Counterexample for C1: at the explicit input n = 0 (an integer < 1) the
trial does not fail — it returns the step count 0, because the
`while len(collected) < n` guard is false from the start. -/
theorem coupon_trial_cex_returns_count : coupon_collector_trial 0 [] = some 0 := by decide

/-- C1 (amended): for every integer n < 1, `coupon_collector_trial` signals
no error at all: it returns the step count 0 without consuming any random
draw, for every draw stream. -/
theorem coupon_trial_no_validation (n : Int) (h : n < 1) (draws : List Nat) :
    coupon_collector_trial n draws = some 0 := by
  have hn : ¬ (((∅ : Finset Nat).card : Int) < n) := by
    simp only [Finset.card_empty]
    omega
  unfold coupon_collector_trial
  cases draws with
  | nil => unfold coupon_collector_trialS; rw [if_neg hn]; rfl
  | cons d ds => unfold coupon_collector_trialS; rw [if_neg hn]; rfl

/-- Witness for C1 (amended), at n = -2 with draw stream [5]. -/
theorem coupon_trial_no_validation_witness :
    (-2 : Int) < 1 ∧ coupon_collector_trial (-2) [5] = some 0 :=
  ⟨by norm_num, coupon_trial_no_validation (-2) (by norm_num) [5]⟩

/-- C2: for trialCount = 0 the aggregation fails — Python's
`sum(steps_list) / trials` raises `ZeroDivisionError`, embedded as
`Except.error` — and zero trials run (the trial loop returns the empty list
and consumes no draws), for every n and every draw stream. -/
theorem simulate_coupon_collector_zero_trials (n : Int) (draws : List Nat) :
    simulate_coupon_collector n 0 draws = some (Except.error "ZeroDivisionError") ∧
    runTrials n 0 draws = some ([], draws) :=
  ⟨rfl, rfl⟩

/-- C4: for every integer n ≥ 1, on every draw stream on which the trial
completes, the returned draw count is at least n; moreover the trial does
complete on a concrete stream (the n fresh coupons 0, …, n-1 in order),
there with draw count exactly n. -/
theorem coupon_trial_lower_bound (n : Int) (hn : 1 ≤ n) :
    (∀ (draws : List Nat) (s : Nat), coupon_collector_trial n draws = some s → n ≤ (s : Int)) ∧
    coupon_collector_trial n (List.range n.toNat) = some n.toNat := by
  constructor
  · intro draws s h
    unfold coupon_collector_trial at h
    cases h0 : coupon_collector_trialS n (∅ : Finset Nat) 0 draws with
    | none => rw [h0] at h; exact absurd h (by simp)
    | some sr =>
        obtain ⟨s0, rest⟩ := sr
        rw [h0] at h
        obtain rfl : s0 = s := by simpa using h
        have := (coupon_collector_trialS_ge draws n (∅ : Finset Nat) 0 s0 rest h0).1
        simpa using this
  · have h0 : (0 : Int) ≤ n := by omega
    have hr := coupon_collector_trialS_range' n.toNat 0 n
      (by simp [Int.toNat_of_nonneg h0])
    unfold coupon_collector_trial
    rw [List.range_eq_range', show Finset.range 0 = (∅ : Finset Nat) from rfl] at *
    rw [show (0 : Nat) + n.toNat = n.toNat from by omega] at hr
    rw [hr]
    rfl

/-- Witness for C4 at n = 1: the lower bound applied to the completed run on
draw stream [0], and completion on the canonical stream. -/
theorem coupon_trial_lower_bound_witness :
    (1 : Int) ≤ ((1 : Nat) : Int) ∧
    coupon_collector_trial 1 (List.range (1 : Int).toNat) = some (1 : Int).toNat :=
  ⟨(coupon_trial_lower_bound 1 (by norm_num)).1 [0] 1 (by decide),
   (coupon_trial_lower_bound 1 (by norm_num)).2⟩

/-- C5: for n = 3 on the seeded draw stream [0, 1, 0, 2] the trial returns
exactly 4 draws: the repeated coupon 0 still increments the counter, and the
loop stops when the third distinct coupon arrives. -/
theorem coupon_trial_scenario_n3 : coupon_collector_trial 3 [0, 1, 0, 2] = some 4 := by decide

/-! ## Helper lemmas about the branching-process embedding -/

/-- With at least two entries in the distribution, the inline sampler never
raises: only `cdf[0]` and `cdf[1]` are touched, and both exist. -/
lemma sampleOff_cons2 (p0 p1 : Rat) (rest : List Rat) (r : Rat) :
    ∃ c, sampleOff (p0 :: p1 :: rest) r = some c := by
  by_cases hA : r < p0
  · exact ⟨0, by simp [sampleOff, hA]⟩
  · by_cases hB : r < p0 + p1
    · exact ⟨1, by simp [sampleOff, hA, hB]⟩
    · exact ⟨2, by simp [sampleOff, hA, hB]⟩

/-- With at least two entries in the distribution, summing offspring over any
number of individuals succeeds. -/
lemma sumOffspring_cons2 (p0 p1 : Rat) (rest : List Rat) (u : Nat → Rat) :
    ∀ (k pos : Nat), ∃ s q, sumOffspring (p0 :: p1 :: rest) u pos k = some (s, q) := by
  intro k
  induction k with
  | zero => exact fun pos => ⟨0, pos, rfl⟩
  | succ k ih =>
      intro pos
      obtain ⟨c, hc⟩ := sampleOff_cons2 p0 p1 rest (u pos)
      obtain ⟨s, q, hs⟩ := ih (pos + 1)
      exact ⟨c + s, q, by unfold sumOffspring; rw [hc, hs]⟩

/-- With at least two entries in the distribution, the generation loop
succeeds for every horizon, position and current size. -/
lemma simLoop_cons2 (p0 p1 : Rat) (rest : List Rat) (u : Nat → Rat) :
    ∀ (g pos lastSize : Nat), ∃ l, simLoop (p0 :: p1 :: rest) u pos g lastSize = some l := by
  intro g
  induction g with
  | zero => exact fun pos lastSize => ⟨[], rfl⟩
  | succ g ih =>
      intro pos lastSize
      obtain ⟨s, q, hs⟩ := sumOffspring_cons2 p0 p1 rest u lastSize pos
      by_cases h0 : s = 0
      · exact ⟨s :: List.replicate g 0, by unfold simLoop; rw [hs]; simp [h0]⟩
      · obtain ⟨l, hl⟩ := ih q s
        exact ⟨s :: l, by unfold simLoop; rw [hs]; simp [h0, hl]⟩

/-- Whatever the distribution, a sampled offspring count is at most 2. -/
lemma sampleOff_le_two (probs : List Rat) (r : Rat) (c : Nat)
    (h : sampleOff probs r = some c) : c ≤ 2 := by
  match probs with
  | [] => simp [sampleOff] at h
  | [p0] =>
      simp only [sampleOff] at h
      split at h
      · simp only [Option.some.injEq] at h
        omega
      · exact absurd h (by simp)
  | p0 :: p1 :: tl =>
      simp only [sampleOff] at h
      split at h
      · simp only [Option.some.injEq] at h
        omega
      · split at h
        · simp only [Option.some.injEq] at h
          omega
        · simp only [Option.some.injEq] at h
          omega

/-- The sampler only inspects the first two entries of the distribution. -/
lemma sampleOff_tail_eq (p0 p1 : Rat) (rest rest2 : List Rat) (r : Rat) :
    sampleOff (p0 :: p1 :: rest) r = sampleOff (p0 :: p1 :: rest2) r := rfl

/-- Offspring summation only depends on the first two distribution entries. -/
lemma sumOffspring_tail_eq (p0 p1 : Rat) (rest rest2 : List Rat) (u : Nat → Rat) :
    ∀ (k pos : Nat),
      sumOffspring (p0 :: p1 :: rest) u pos k = sumOffspring (p0 :: p1 :: rest2) u pos k := by
  intro k
  induction k with
  | zero => exact fun pos => rfl
  | succ k ih =>
      intro pos
      unfold sumOffspring
      rw [sampleOff_tail_eq p0 p1 rest rest2 (u pos), ih (pos + 1)]

/-- The generation loop only depends on the first two distribution entries. -/
lemma simLoop_tail_eq (p0 p1 : Rat) (rest rest2 : List Rat) (u : Nat → Rat) :
    ∀ (g pos lastSize : Nat),
      simLoop (p0 :: p1 :: rest) u pos g lastSize = simLoop (p0 :: p1 :: rest2) u pos g lastSize := by
  intro g
  induction g with
  | zero => exact fun pos lastSize => rfl
  | succ g ih =>
      intro pos lastSize
      unfold simLoop
      rw [sumOffspring_tail_eq p0 p1 rest rest2 u lastSize pos]
      cases sumOffspring (p0 :: p1 :: rest2) u pos lastSize with
      | none => rfl
      | some cq =>
          obtain ⟨children, q⟩ := cq
          by_cases h0 : children = 0
          · simp [h0]
          · simp only [if_neg h0]
            rw [ih q children]

/-- Every entry of a replicated-zero list reads back as zero. -/
lemma getD_replicate_zero : ∀ (g j : Nat), (List.replicate g (0 : Nat)).getD j 0 = 0 := by
  intro g
  induction g with
  | zero => intro j; cases j <;> rfl
  | succ g ih =>
      intro j
      cases j with
      | zero => rfl
      | succ j => simp only [List.replicate_succ, List.getD_cons_succ]; exact ih j

/-- Absorption property of a size list: any zero entry forces every later
in-range entry to be zero. -/
def ZeroTail (l : List Nat) : Prop :=
  ∀ i j, i ≤ j → j < l.length → l.getD i 0 = 0 → l.getD j 0 = 0

/-- A zero followed by replicated zeros is absorbing. -/
lemma zeroTail_allzero (g : Nat) : ZeroTail ((0 : Nat) :: List.replicate g 0) := by
  intro i j _ _ _
  cases j with
  | zero => rfl
  | succ j => simp only [List.getD_cons_succ]; exact getD_replicate_zero g j

/-- Prepending a nonzero head preserves absorption. -/
lemma zeroTail_cons (c : Nat) (l : List Nat) (hc : c ≠ 0) (hl : ZeroTail l) :
    ZeroTail (c :: l) := by
  intro i j hij hj hi
  cases i with
  | zero => exact absurd hi hc
  | succ i =>
      cases j with
      | zero => omega
      | succ j =>
          have := hl i j (by omega) (by simpa using hj) (by simpa using hi)
          simpa using this

/-- The generation loop output is absorbing at zero. -/
lemma simLoop_zeroTail (probs : List Rat) (u : Nat → Rat) :
    ∀ (g pos lastSize : Nat) (l : List Nat),
      simLoop probs u pos g lastSize = some l → ZeroTail l := by
  intro g
  induction g with
  | zero =>
      intro pos lastSize l h
      obtain rfl : [] = l := Option.some.injEq .. ▸ h
      intro i j _ hj _
      simp at hj
  | succ g ih =>
      intro pos lastSize l h
      unfold simLoop at h
      split at h
      · exact absurd h (by simp)
      · rename_i children q h1
        split at h
        · rename_i h0
          obtain rfl : children :: List.replicate g 0 = l := Option.some.injEq .. ▸ h
          subst h0
          exact zeroTail_allzero g
        · rename_i h0
          split at h
          · exact absurd h (by simp)
          · rename_i l1 h2
            obtain rfl : children :: l1 = l := Option.some.injEq .. ▸ h
            exact zeroTail_cons children l1 h0 (ih q children l1 h2)

/-- The generation loop returns exactly one entry per requested generation. -/
lemma simLoop_length (probs : List Rat) (u : Nat → Rat) :
    ∀ (g pos lastSize : Nat) (l : List Nat),
      simLoop probs u pos g lastSize = some l → l.length = g := by
  intro g
  induction g with
  | zero =>
      intro pos lastSize l h
      obtain rfl : [] = l := Option.some.injEq .. ▸ h
      rfl
  | succ g ih =>
      intro pos lastSize l h
      unfold simLoop at h
      split at h
      · exact absurd h (by simp)
      · rename_i children q h1
        split at h
        · obtain rfl : children :: List.replicate g 0 = l := Option.some.injEq .. ▸ h
          simp
        · split at h
          · exact absurd h (by simp)
          · rename_i l1 h2
            obtain rfl : children :: l1 = l := Option.some.injEq .. ▸ h
            simp [ih q children l1 h2]

/-! ## Claims C3, C6, C7, C8, C9, C10 -/

/-- Counterexample for C3: at the explicit invalid distribution [2, 2] (its
entries sum to 4, not 1) none of the operations fails — `simulate_trial`
returns an ordinary size sequence and `mu` returns the ordinary weighted sum
2, with no error surfaced to the caller. -/
theorem branching_no_validation_cex :
    simulate_trial [2, 2] 1 (fun _ => 1/2) = some [1, 0] ∧
    mu [2, 2] = 2 ∧ ((2 : Rat) + 2 ≠ 1) := by
  refine ⟨?_, ?_, ?_⟩
  · norm_num [simulate_trial, simLoop, sumOffspring, sampleOff]
  · norm_num [mu, List.enum, List.enumFrom]
  · norm_num

/-- C3 (amended): the branching-process operations perform no validation of
the offspring distribution: for every distribution with at least two entries
— whether or not it sums to 1 or contains negative probabilities —
`simulate_trial` succeeds and returns a size sequence (and `mu` is a total
function of the entries). -/
theorem branching_no_validation (p0 p1 : Rat) (rest : List Rat) (g : Nat) (u : Nat → Rat) :
    (simulate_trial (p0 :: p1 :: rest) g u).isSome = true := by
  unfold simulate_trial
  obtain ⟨l, hl⟩ := simLoop_cons2 p0 p1 rest u g 0 1
  rw [hl]
  rfl

/-- C6: for every valid offspring distribution over {0, 1, 2} and every
u ∈ [0, 1), the inline sampler `0 if u < cdf[0] else 1 if u < cdf[1] else 2`
returns exactly the smallest index i with u < cdf[i] over the running
cumulative sums — ties at boundary values resolve to the lower index since
the comparison is strict. -/
theorem offspring_sampling_cdf (p0 p1 p2 u : Rat) (_h0 : 0 ≤ p0) (_h1 : 0 ≤ p1)
    (_h2 : 0 ≤ p2) (hsum : p0 + p1 + p2 = 1) (_hu0 : 0 ≤ u) (hu1 : u < 1) :
    sampleOff [p0, p1, p2] u = some (cdfIndexSpec [p0, p0 + p1, p0 + p1 + p2] u) := by
  have hC : u < p0 + p1 + p2 := by rw [hsum]; exact hu1
  unfold cdfIndexSpec
  by_cases hA : u < p0
  · simp [sampleOff, hA, List.findIdx_cons]
  · by_cases hB : u < p0 + p1
    · simp [sampleOff, hA, hB, List.findIdx_cons]
    · simp [sampleOff, hA, hB, hC, List.findIdx_cons]

/-- Witness for C6 at the valid distribution [1/2, 1/4, 1/4] and u = 3/4. -/
theorem offspring_sampling_cdf_witness :
    (0 : Rat) ≤ 1/2 ∧ (1/2 : Rat) + 1/4 + 1/4 = 1 ∧
    sampleOff [1/2, 1/4, 1/4] (3/4) =
      some (cdfIndexSpec [1/2, 1/2 + 1/4, 1/2 + 1/4 + 1/4] (3/4)) :=
  ⟨by norm_num, by norm_num,
   offspring_sampling_cdf (1/2) (1/4) (1/4) (3/4) (by norm_num) (by norm_num)
     (by norm_num) (by norm_num) (by norm_num) (by norm_num)⟩

/-- C7: every size sequence returned by the branching-process trial has only
non-negative entries, and extinction is absorbing: a zero entry forces every
later entry of the returned sequence to be zero. -/
theorem branching_trial_nonneg_absorbing (probs : List Rat) (gens : Nat) (u : Nat → Rat)
    (sizes : List Nat) (h : simulate_trial probs gens u = some sizes) :
    (∀ i, (0 : Int) ≤ (sizes.getD i 0 : Int)) ∧
    (∀ i j, i ≤ j → j < sizes.length → sizes.getD i 0 = 0 → sizes.getD j 0 = 0) := by
  constructor
  · intro i
    exact Int.natCast_nonneg _
  · unfold simulate_trial at h
    split at h
    · exact absurd h (by simp)
    · rename_i l hl
      obtain rfl : 1 :: l = sizes := Option.some.injEq .. ▸ h
      exact zeroTail_cons 1 l one_ne_zero (simLoop_zeroTail probs u gens 0 1 l hl)

/-- Witness for C7 on the trial with distribution [1, 0, 0] (extinction in
generation 1), horizon 2, constant stream 0: size sequence [1, 0, 0]. -/
theorem branching_trial_nonneg_absorbing_witness :
    ((0 : Int) ≤ (([1, 0, 0] : List Nat).getD 0 0 : Int)) ∧
    ([1, 0, 0] : List Nat).getD 2 0 = 0 := by
  have h : simulate_trial [1, 0, 0] 2 (fun _ => 0) = some [1, 0, 0] := by
    norm_num [simulate_trial, simLoop, sumOffspring, sampleOff]
  exact ⟨(branching_trial_nonneg_absorbing [1, 0, 0] 2 (fun _ => 0) [1, 0, 0] h).1 0,
         (branching_trial_nonneg_absorbing [1, 0, 0] 2 (fun _ => 0) [1, 0, 0] h).2
           1 2 (by norm_num) (by norm_num) rfl⟩

/-- C8: every size sequence returned by the branching-process trial has
length exactly generations + 1 — regardless of where extinction occurs,
thanks to the zero padding — and its first entry is always 1. -/
theorem branching_trial_length_root (probs : List Rat) (gens : Nat) (u : Nat → Rat)
    (sizes : List Nat) (h : simulate_trial probs gens u = some sizes) :
    sizes.length = gens + 1 ∧ sizes.getD 0 0 = 1 := by
  unfold simulate_trial at h
  split at h
  · exact absurd h (by simp)
  · rename_i l hl
    obtain rfl : 1 :: l = sizes := Option.some.injEq .. ▸ h
    exact ⟨by simp [simLoop_length probs u gens 0 1 l hl], rfl⟩

/-- Witness for C8 on the trial with distribution [0, 1], horizon 1,
constant stream 0: size sequence [1, 1]. -/
theorem branching_trial_length_root_witness :
    ([1, 1] : List Nat).length = 1 + 1 ∧ ([1, 1] : List Nat).getD 0 0 = 1 := by
  have h : simulate_trial [0, 1] 1 (fun _ => 0) = some [1, 1] := by
    norm_num [simulate_trial, simLoop, sumOffspring, sampleOff]
  exact branching_trial_length_root [0, 1] 1 (fun _ => 0) [1, 1] h

/-- C9: whenever `simulate_coupon_collector` returns a result for
trials ≥ 1, the per-trial list has length exactly trials, the average is the
arithmetic mean (sum of the list divided by trials), and the list is exactly
the one produced by invoking the trial loop trials times in sequence on the
draw stream (invocation order). -/
theorem simulate_coupon_collector_mean (n : Int) (trials : Nat) (draws : List Nat)
    (avg : Rat) (lst : List Nat) (ht : 1 ≤ trials)
    (h : simulate_coupon_collector n trials draws = some (Except.ok (avg, lst))) :
    lst.length = trials ∧ avg = ((lst.sum : Nat) : Rat) / (trials : Rat) ∧
    ∃ rest, runTrials n trials draws = some (lst, rest) := by
  unfold simulate_coupon_collector at h
  split at h
  · exact absurd h (by simp)
  · rename_i l r hr
    have ht0 : trials ≠ 0 := by omega
    rw [if_neg ht0] at h
    have h2 : Except.ok (ε := String) (((l.sum : Nat) : Rat) / (trials : Rat), l) =
        Except.ok (avg, lst) := Option.some.injEq .. ▸ h
    injection h2 with h3
    obtain ⟨h4, h5⟩ := Prod.mk.injEq .. ▸ h3
    subst h5
    exact ⟨runTrials_length n trials draws l r hr, h4.symm, ⟨r, hr⟩⟩

/-- Witness for C9 with n = 1, trials = 2, draw stream [0, 0]: per-trial
list [1, 1] and average 1. -/
theorem simulate_coupon_collector_mean_witness :
    ([1, 1] : List Nat).length = 2 ∧
    (1 : Rat) = ((([1, 1] : List Nat).sum : Nat) : Rat) / ((2 : Nat) : Rat) ∧
    ∃ rest, runTrials 1 2 [0, 0] = some ([1, 1], rest) := by
  have h : simulate_coupon_collector 1 2 [0, 0] = some (Except.ok (1, [1, 1])) := by
    norm_num [simulate_coupon_collector, runTrials, coupon_collector_trialS]
  exact simulate_coupon_collector_mean 1 2 [0, 0] 1 [1, 1] (by norm_num) h

/-- C10: the branching-process trial only ever reads the first two
cumulative values of the distribution, so with the same random stream two
distributions agreeing at indices 0 and 1 produce identical size sequences
whatever their tails, and every sampled offspring count is at most 2. -/
theorem branching_tail_irrelevant (p0 p1 : Rat) (rest rest2 : List Rat) (gens : Nat)
    (u : Nat → Rat) :
    simulate_trial (p0 :: p1 :: rest) gens u = simulate_trial (p0 :: p1 :: rest2) gens u ∧
    ∀ (r : Rat) (c : Nat), sampleOff (p0 :: p1 :: rest) r = some c → c ≤ 2 := by
  constructor
  · unfold simulate_trial
    rw [simLoop_tail_eq p0 p1 rest rest2 u gens 0 1]
  · exact fun r c hc => sampleOff_le_two (p0 :: p1 :: rest) r c hc

/-- Witness for C10: the distributions [1, 0, 5] and [1, 0, 7] agree at
indices 0 and 1 and give the same trial result; the sample at u = 1 is 2. -/
theorem branching_tail_irrelevant_witness :
    simulate_trial [1, 0, 5] 1 (fun _ => 0) = simulate_trial [1, 0, 7] 1 (fun _ => 0) ∧
    (2 : Nat) ≤ 2 :=
  ⟨(branching_tail_irrelevant 1 0 [5] [7] 1 (fun _ => 0)).1,
   (branching_tail_irrelevant 1 0 [5] [7] 1 (fun _ => 0)).2 1 2 (by norm_num [sampleOff])⟩
